import Mathlib

/-!
Verification of the `cudf::fp` fixed-point value type
(`cpp/include/cudf/fixed_point/fixed_point.hpp`).

Shallow embedding conventions:
* `Rep` (a signed machine integer type) is modelled by `Int`; where a claim
  depends on the finite range of `Rep`, the bounds `std::numeric_limits<Rep>::min/max`
  are passed explicitly as `mn`/`mx` parameters (with `mn = -mx - 1`, the
  twos-complement relation satisfied by every `int8/16/32/64`).
* `double` intermediates (the results of `std::pow` and of the mixed
  integer/double arithmetic inside `shift` and the operators) are modelled by
  `ℚ`, i.e. the exact real-number arithmetic that the code formulas denote;
  IEEE rounding of `std::pow`/`/` is outside the embedding.
* The C++ conversion from a `double` to a signed integer type truncates
  toward zero; it is modelled by `ratTrunc`.
* C++ integer division (`/` on `Rep`) truncates toward zero and is modelled
  by `Int.tdiv`.
-/

namespace cudf

/-- The `Radix` enumeration of the source: `BASE_2 = 2`, `BASE_10 = 10`. -/
inductive Radix where
  | BASE_2 : Radix
  | BASE_10 : Radix
deriving DecidableEq

/-- The integer value of a `Radix` enumerator (the `static_cast<int32_t>(Rad)` of the source). -/
def Radix.toInt : Radix → Int
  | .BASE_2 => 2
  | .BASE_10 => 10

/-- Source `scale_type` is a strong typedef of `int32_t`; it is modelled directly as `Int`
(every definition below writes `Int` where the source writes `scale_type`). -/
abbrev scale_type : Type := Int

/-- Source `detail::negate`: negate a strongly typed `scale_type` (`-1 * scale`). -/
def negate (scale : Int) : Int := -1 * scale

/-- Model of `std::pow(static_cast<int32_t>(Rad), e)` on an integer base and integer exponent,
modelled as the exact rational power (negative exponents give the reciprocal). -/
def powZ (r : Int) (e : Int) : ℚ :=
  if 0 ≤ e then ((r ^ e.toNat : Int) : ℚ) else ((r ^ (-e).toNat : Int) : ℚ)⁻¹

/-- Truncation toward zero of a real (`double`) value to a signed integer:
the semantics of C++ `static_cast` from `double` to a signed integer type. -/
def ratTrunc (q : ℚ) : Int := if 0 ≤ q then ⌊q⌋ else ⌈q⌉

/-- Source `detail::right_shift`: `val / std::pow(Rad, scale)`. -/
def right_shift (Rad : Radix) (val : ℚ) (scale : Int) : ℚ := val / powZ Rad.toInt scale

/-- Source `detail::left_shift`: `val * std::pow(Rad, scale)`. -/
def left_shift (Rad : Radix) (val : ℚ) (scale : Int) : ℚ := val * powZ Rad.toInt scale

/-- Source `detail::shift`: `scale >= 0 ? right_shift(val, scale) : left_shift(val, negate(scale))`. -/
def shift (Rad : Radix) (val : ℚ) (scale : Int) : ℚ :=
  if 0 ≤ scale then right_shift Rad val scale else left_shift Rad val (negate scale)

/-- Source `scaled_integer<Rep>`: a pre-scaled `(value, scale)` pair.  The C++ constructor takes
`Rep v`, so any `double` argument is truncated toward zero before being stored; callers
of this structure in the model perform that truncation explicitly via `ratTrunc`. -/
structure scaled_integer where
  value : Int
  scale : Int

/-- Source `fixed_point<Rep, Rad>`: the unscaled representation value and its scale.
The `Rad` parameter of the C++ template is passed to each operation explicitly. -/
structure fixed_point where
  _scale : Int
  _value : Int
deriving DecidableEq

namespace fixed_point

/-- The constructor `fixed_point(T value, scale_type scale)`:
stores `_value = detail::shift<Rad>(value, scale)` (truncated to `Rep`) and `_scale = scale`.
`value : ℚ` covers both native integer and floating-point arguments. -/
def ofValueScale (Rad : Radix) (value : ℚ) (scale : Int) : fixed_point :=
  { _scale := scale, _value := ratTrunc (shift Rad value scale) }

/-- The constructor `fixed_point(scaled_integer<Rep> s)`: stores the pair verbatim. -/
def ofScaled (s : scaled_integer) : fixed_point :=
  { _scale := s.scale, _value := s.value }

/-- The explicit conversion `operator U()` for a floating-point `U`:
`detail::shift<Rad>((U)_value, detail::negate(_scale))`, kept exact in `ℚ`. -/
def toNativeF (Rad : Radix) (x : fixed_point) : ℚ :=
  shift Rad (x._value : ℚ) (negate x._scale)

/-- The explicit conversion `operator U()` for an integer `U`: the same shift,
truncated toward zero on the conversion back to an integer type. -/
def toNativeI (Rad : Radix) (x : fixed_point) : Int :=
  ratTrunc (toNativeF Rad x)

/-- Source `fixed_point::get()`: computes `rounded_val = _value / std::pow(Rad, _scale)` (an `int`),
tests `rounded_val * Rad * _scale != _value`, and returns the `double` conversion when the
test holds, otherwise the `Rep` conversion (promoted back to `double` by the ternary). -/
def get (Rad : Radix) (x : fixed_point) : ℚ :=
  let rounded_val : Int := ratTrunc ((x._value : ℚ) / powZ Rad.toInt x._scale)
  let needs_floating_point : Bool := rounded_val * Rad.toInt * x._scale != x._value
  if needs_floating_point then toNativeF Rad x else ((toNativeI Rad x : Int) : ℚ)

/-- Source `operator+`: aligns the operand of smaller scale onto the larger scale via
`detail::shift` (the shifted value stays a `double`), adds, and truncates the sum
once on conversion to `Rep` inside `scaled_integer`. -/
def add (Rad : Radix) (lhs rhs : fixed_point) : fixed_point :=
  let rhsv : ℚ :=
    if lhs._scale > rhs._scale then shift Rad (rhs._value : ℚ) (lhs._scale - rhs._scale)
    else (rhs._value : ℚ)
  let lhsv : ℚ :=
    if lhs._scale < rhs._scale then shift Rad (lhs._value : ℚ) (rhs._scale - lhs._scale)
    else (lhs._value : ℚ)
  let scale : Int := if lhs._scale > rhs._scale then lhs._scale else rhs._scale
  ofScaled { value := ratTrunc (lhsv + rhsv), scale := scale }

/-- Source `operator-`: same alignment as `operator+`, subtracting instead. -/
def sub (Rad : Radix) (lhs rhs : fixed_point) : fixed_point :=
  let rhsv : ℚ :=
    if lhs._scale > rhs._scale then shift Rad (rhs._value : ℚ) (lhs._scale - rhs._scale)
    else (rhs._value : ℚ)
  let lhsv : ℚ :=
    if lhs._scale < rhs._scale then shift Rad (lhs._value : ℚ) (rhs._scale - lhs._scale)
    else (lhs._value : ℚ)
  let scale : Int := if lhs._scale > rhs._scale then lhs._scale else rhs._scale
  ofScaled { value := ratTrunc (lhsv - rhsv), scale := scale }

/-- Source `operator*`: `scaled_integer(lhs._value * rhs._value, lhs._scale + rhs._scale)`. -/
def mul (_Rad : Radix) (lhs rhs : fixed_point) : fixed_point :=
  ofScaled { value := lhs._value * rhs._value, scale := lhs._scale + rhs._scale }

/-- Source `operator/`: `scaled_integer(lhs._value / rhs._value, lhs._scale - rhs._scale)`
with C++ (toward-zero) integer division. -/
def div (_Rad : Radix) (lhs rhs : fixed_point) : fixed_point :=
  ofScaled { value := Int.tdiv lhs._value rhs._value, scale := lhs._scale - rhs._scale }

/-- Source `operator+=`: `*this = *this + rhs; return *this`.  The function returns the new
state of the left operand. -/
def addAssign (Rad : Radix) (x y : fixed_point) : fixed_point := add Rad x y

/-- Source `operator-=`: `*this = *this - rhs; return *this`. -/
def subAssign (Rad : Radix) (x y : fixed_point) : fixed_point := sub Rad x y

/-- Source `operator*=`: `*this = *this * rhs; return *this`. -/
def mulAssign (Rad : Radix) (x y : fixed_point) : fixed_point := mul Rad x y

/-- Source `operator/=`: `*this = *this / rhs; return *this`. -/
def divAssign (Rad : Radix) (x y : fixed_point) : fixed_point := div Rad x y

end fixed_point

/-- Source `addition_overflow<Rep>`: `rhs > 0 ? lhs > max - rhs : lhs < min - rhs`,
with `mn`/`mx` the `numeric_limits` bounds of `Rep`. -/
def addition_overflow (mn mx lhs rhs : Int) : Bool :=
  if rhs > 0 then lhs > mx - rhs else lhs < mn - rhs

/-- Source `subtraction_overflow<Rep>`: `rhs > 0 ? lhs < min + rhs : lhs > max + rhs`. -/
def subtraction_overflow (mn mx lhs rhs : Int) : Bool :=
  if rhs > 0 then lhs < mn + rhs else lhs > mx + rhs

/-- Source `division_overflow<Rep>`: `lhs == min && rhs == -1` (`mx` is unused by the source). -/
def division_overflow (mn _mx lhs rhs : Int) : Bool :=
  lhs == mn && rhs == -1

/-- Source `multiplication_overflow<Rep>`: case split on the sign of `rhs`, with C++
(toward-zero) integer division of the bounds. -/
def multiplication_overflow (mn mx lhs rhs : Int) : Bool :=
  if rhs > 0 then lhs > Int.tdiv mx rhs || lhs < Int.tdiv mn rhs
  else if rhs < -1 then lhs > Int.tdiv mn rhs || lhs < Int.tdiv mx rhs
  else rhs == -1 && lhs == mn

/-- Source `std::numeric_limits<int32_t>::min()`. -/
def int32_min : Int := -2147483648

/-- Source `std::numeric_limits<int32_t>::max()`. -/
def int32_max : Int := 2147483647

/-- The single error kind of this core: the `CUDF_FAIL` overflow report. -/
inductive FpError where
  | Overflow : FpError
deriving DecidableEq

/-- Source `operator/` as compiled under `__CUDACC_DEBUG__`: the checked entry point tests
`division_overflow<Rep>(lhs._value, rhs._value)` and fails with `Overflow` before
performing the division. -/
def fixed_point.divChecked (Rad : Radix) (mn mx : Int) (lhs rhs : fixed_point) :
    Except FpError fixed_point :=
  if division_overflow mn mx lhs._value rhs._value then Except.error FpError.Overflow
  else Except.ok (fixed_point.div Rad lhs rhs)

/-- The exactness contract the spec states for `to_best_representation` (`get`):
compute `candidate = unscaled_value / Radix^scale` by integer (truncating) division and
return `candidate` as an integer exactly when re-expanding it by `Radix^scale`
reproduces `unscaled_value`; otherwise return the floating-point conversion. -/
def get_contract (Rad : Radix) (x : fixed_point) : ℚ :=
  let candidate : Int := ratTrunc ((x._value : ℚ) / powZ Rad.toInt x._scale)
  if (candidate : ℚ) * powZ Rad.toInt x._scale = (x._value : ℚ) then (candidate : ℚ)
  else fixed_point.toNativeF Rad x

/-! ## Arithmetic characterizations of the shift and truncation helpers -/

lemma radix_toInt_pos (Rad : Radix) : 0 < Rad.toInt := by cases Rad <;> decide

lemma powZ_eq_zpow (r e : Int) : powZ r e = (r : ℚ) ^ e := by
  unfold powZ
  by_cases he : 0 ≤ e
  · rw [if_pos he]
    push_cast
    rw [← zpow_natCast, Int.toNat_of_nonneg he]
  · rw [if_neg he]
    push_cast
    rw [← zpow_natCast, Int.toNat_of_nonneg (by omega : (0:Int) ≤ -e), ← zpow_neg, neg_neg]

lemma ratTrunc_intCast (u : Int) : ratTrunc (u : ℚ) = u := by
  unfold ratTrunc
  by_cases h : (0:ℚ) ≤ (u : ℚ) <;> simp [h]

lemma ratTrunc_div_intCast_pos (u n : Int) (hn : 0 < n) :
    ratTrunc ((u : ℚ) / (n : ℚ)) = Int.tdiv u n := by
  have hnq : (0:ℚ) < (n : ℚ) := by exact_mod_cast hn
  have hcast : ((n.toNat : ℕ) : ℚ) = (n : ℚ) := by
    rw [← Int.cast_natCast, Int.toNat_of_nonneg hn.le]
  have hcastz : ((n.toNat : ℕ) : ℤ) = n := Int.toNat_of_nonneg hn.le
  rcases le_or_lt 0 u with hu | hu
  · have hq : (0:ℚ) ≤ (u:ℚ)/(n:ℚ) := div_nonneg (by exact_mod_cast hu) hnq.le
    rw [ratTrunc, if_pos hq, ← hcast, Rat.floor_intCast_div_natCast, hcastz,
      Int.tdiv_eq_ediv hu hn.le]
  · have hq : (u:ℚ)/(n:ℚ) < 0 := div_neg_of_neg_of_pos (by exact_mod_cast hu) hnq
    rw [ratTrunc, if_neg (not_le.mpr hq)]
    have h1 : ⌈(u:ℚ)/(n:ℚ)⌉ = -⌊-((u:ℚ)/(n:ℚ))⌋ := by
      rw [← Int.ceil_neg, neg_neg]
    rw [h1, ← neg_div, ← Int.cast_neg, ← hcast, Rat.floor_intCast_div_natCast, hcastz]
    rw [← Int.tdiv_eq_ediv (by omega) hn.le, Int.neg_tdiv, neg_neg]

lemma ratTrunc_div_intCast (u n : Int) (hn : n ≠ 0) :
    ratTrunc ((u : ℚ) / (n : ℚ)) = Int.tdiv u n := by
  rcases lt_or_gt_of_ne hn with hneg | hpos
  · have h1 : (u:ℚ)/(n:ℚ) = ((-u : ℤ):ℚ)/((-n : ℤ):ℚ) := by
      push_cast
      rw [neg_div_neg_eq]
    rw [h1, ratTrunc_div_intCast_pos (-u) (-n) (by omega), Int.neg_tdiv, Int.tdiv_neg, neg_neg]
  · exact ratTrunc_div_intCast_pos u n hpos

lemma shift_as_zpow (Rad : Radix) (val : ℚ) (s : Int) :
    shift Rad val s = val * (Rad.toInt : ℚ) ^ (-s) := by
  unfold shift right_shift left_shift negate
  by_cases hs : 0 ≤ s
  · rw [if_pos hs, powZ_eq_zpow, div_eq_mul_inv, ← zpow_neg]
  · rw [if_neg hs, powZ_eq_zpow]
    norm_num

lemma zpow_eq_pow_toNat_cast (r : Int) (s : Int) (hs : 0 ≤ s) :
    ((r : ℚ)) ^ s = ((r ^ s.toNat : Int) : ℚ) := by
  push_cast
  rw [← zpow_natCast, Int.toNat_of_nonneg hs]

/-- C4: for every value and scale exponent, `shift(value, scale)` is
`value / Radix^scale` when `scale ≥ 0` and `value * Radix^(-scale)` when `scale < 0`;
the sign of the exponent alone selects the direction. -/
theorem shift_direction (Rad : Radix) (val : ℚ) (s : Int) :
    (0 ≤ s → shift Rad val s = val / (Rad.toInt : ℚ) ^ s) ∧
    (s < 0 → shift Rad val s = val * (Rad.toInt : ℚ) ^ (-s)) := by
  constructor <;> intro hs
  · rw [shift_as_zpow, zpow_neg, div_eq_mul_inv]
  · rw [shift_as_zpow]

/-- Witness for `shift_direction` at scale 2 and scale -2 with radix 10. -/
theorem shift_direction_witness :
    ((0:Int) ≤ 2 ∧ shift Radix.BASE_10 5 2 = 1 / 20) ∧
    ((-2:Int) < 0 ∧ shift Radix.BASE_10 5 (-2) = 500) := by
  constructor
  · refine ⟨by norm_num, ?_⟩
    rw [(shift_direction Radix.BASE_10 5 2).1 (by norm_num)]
    norm_num [Radix.toInt]
  · refine ⟨by norm_num, ?_⟩
    rw [(shift_direction Radix.BASE_10 5 (-2)).2 (by norm_num)]
    norm_num [Radix.toInt]

/-- C1 counterexample: adding `from_value_and_scale(1, 0)` and `from_value_and_scale(1, 1)`
(radix 10) yields unscaled value 0, not 11. -/
theorem add_scenario2_not_eleven :
    (fixed_point.add Radix.BASE_10 (fixed_point.ofValueScale Radix.BASE_10 1 0)
      (fixed_point.ofValueScale Radix.BASE_10 1 1))._value = 0 ∧ (0 : Int) ≠ 11 := by
  refine ⟨?_, by decide⟩
  simp [fixed_point.add, fixed_point.ofValueScale, fixed_point.ofScaled, shift, right_shift,
    left_shift, negate, powZ, ratTrunc, Radix.toInt]
  norm_num

/-- C1 amended: the operand of smaller scale is aligned by a right shift (division by 10),
so the sum of `from_value_and_scale(1, 0)` and `from_value_and_scale(1, 1)` has unscaled
value 0 at scale 1: construction at scale 1 already truncates `1/10` to raw value 0, and
the raw value 1 at scale 0 is shifted to `1/10` before the truncated combination. -/
theorem add_scenario2_result :
    fixed_point.add Radix.BASE_10 (fixed_point.ofValueScale Radix.BASE_10 1 0)
      (fixed_point.ofValueScale Radix.BASE_10 1 1) = { _scale := 1, _value := 0 } ∧
    fixed_point.ofValueScale Radix.BASE_10 1 1 = { _scale := 1, _value := 0 } ∧
    shift Radix.BASE_10 1 1 = 1 / 10 := by
  refine ⟨?_, ?_, ?_⟩ <;>
    · simp [fixed_point.add, fixed_point.ofValueScale, fixed_point.ofScaled, shift, right_shift,
        left_shift, negate, powZ, ratTrunc, Radix.toInt]
      try norm_num

/-- C2 counterexample: the value built from `scaled_integer(1, 1)` converts to native 10
(the shift multiplies by the radix for a positive stored scale), not to
`1 × 10^(-1)` as the claim states (whose truncated integer form would be 0). -/
theorem toNative_ofScaled_not_inverse_power :
    fixed_point.toNativeF Radix.BASE_10 (fixed_point.ofScaled ⟨1, 1⟩) = 10 ∧
    fixed_point.toNativeI Radix.BASE_10 (fixed_point.ofScaled ⟨1, 1⟩) = 10 ∧
    (10 : ℚ) ≠ (1 : ℚ) * (10 : ℚ) ^ (-(1 : Int)) := by
  refine ⟨?_, ?_, by norm_num⟩ <;>
    · simp [fixed_point.toNativeI, fixed_point.toNativeF, fixed_point.ofScaled, shift,
        right_shift, left_shift, negate, powZ, ratTrunc, Radix.toInt]
      try norm_num

/-- C2 amended: a value built from `scaled_integer(u, s)` represents `u * Radix^(+s)`:
the floating conversion returns exactly `u * Radix^s`, and the integer conversion
multiplies by `Radix^s` for `s ≥ 0` and divides (truncating toward zero) by
`Radix^(-s)` for `s < 0`. -/
theorem toNative_ofScaled_eq (Rad : Radix) (u s : Int) :
    fixed_point.toNativeF Rad (fixed_point.ofScaled ⟨u, s⟩) = (u : ℚ) * (Rad.toInt : ℚ) ^ s ∧
    (0 ≤ s → fixed_point.toNativeI Rad (fixed_point.ofScaled ⟨u, s⟩) = u * Rad.toInt ^ s.toNat) ∧
    (s < 0 → fixed_point.toNativeI Rad (fixed_point.ofScaled ⟨u, s⟩)
      = Int.tdiv u (Rad.toInt ^ (-s).toNat)) := by
  have hR : 0 < Rad.toInt := radix_toInt_pos Rad
  have hF : fixed_point.toNativeF Rad (fixed_point.ofScaled ⟨u, s⟩)
      = (u : ℚ) * (Rad.toInt : ℚ) ^ s := by
    rw [fixed_point.toNativeF, fixed_point.ofScaled, shift_as_zpow]
    norm_num [negate]
  refine ⟨hF, ?_, ?_⟩ <;> intro hs
  · rw [fixed_point.toNativeI, hF, zpow_eq_pow_toNat_cast _ _ hs, ← Int.cast_mul,
      ratTrunc_intCast]
  · have hsp : (0:Int) ≤ -s := by omega
    have hP : (0:Int) < Rad.toInt ^ (-s).toNat := pow_pos hR _
    rw [fixed_point.toNativeI, hF]
    have h2 : (u : ℚ) * (Rad.toInt : ℚ) ^ s
        = (u : ℚ) / ((Rad.toInt ^ (-s).toNat : Int) : ℚ) := by
      rw [← zpow_eq_pow_toNat_cast _ _ hsp, div_eq_mul_inv, ← zpow_neg, neg_neg]
    rw [h2, ratTrunc_div_intCast _ _ (by omega)]

/-- Witness for `toNative_ofScaled_eq` at `(u, s) = (3, 2)` and `(u, s) = (12500, -2)`,
radix 10: conversion gives `3 * 100 = 300` and `12500 / 100 = 125` respectively. -/
theorem toNative_ofScaled_eq_witness :
    ((0:Int) ≤ 2 ∧ fixed_point.toNativeI Radix.BASE_10 (fixed_point.ofScaled ⟨3, 2⟩) = 300) ∧
    ((-2:Int) < 0 ∧ fixed_point.toNativeI Radix.BASE_10 (fixed_point.ofScaled ⟨12500, -2⟩)
      = 125) := by
  constructor
  · refine ⟨by norm_num, ?_⟩
    rw [(toNative_ofScaled_eq Radix.BASE_10 3 2).2.1 (by norm_num)]
    decide
  · refine ⟨by norm_num, ?_⟩
    rw [(toNative_ofScaled_eq Radix.BASE_10 12500 (-2)).2.2 (by norm_num)]
    decide

/-- C6: multiplication performs no scale alignment: the resulting unscaled value is the
product of the two operand unscaled values and its scale is the sum of their scales. -/
theorem mul_scale_law (Rad : Radix) (a b : fixed_point) :
    (fixed_point.mul Rad a b)._value = a._value * b._value ∧
    (fixed_point.mul Rad a b)._scale = a._scale + b._scale :=
  ⟨rfl, rfl⟩

/-- C7: for a nonzero divisor raw value, division produces the toward-zero truncation of
the exact quotient of unscaled values, and the scale is the difference of scales. -/
theorem div_truncates_and_scale (Rad : Radix) (a b : fixed_point) (hb : b._value ≠ 0) :
    (fixed_point.div Rad a b)._value = ratTrunc ((a._value : ℚ) / (b._value : ℚ)) ∧
    (fixed_point.div Rad a b)._value = Int.tdiv a._value b._value ∧
    (fixed_point.div Rad a b)._scale = a._scale - b._scale := by
  refine ⟨?_, rfl, rfl⟩
  rw [ratTrunc_div_intCast _ _ hb]
  rfl

/-- Witness for `div_truncates_and_scale`: `(-7) / 2` truncates toward zero to `-3`. -/
theorem div_truncates_and_scale_witness :
    (2 : Int) ≠ 0 ∧
    (fixed_point.div Radix.BASE_10 { _scale := 1, _value := -7 }
      { _scale := 1, _value := 2 })._value = -3 := by
  refine ⟨by decide, ?_⟩
  rw [(div_truncates_and_scale Radix.BASE_10 _ _ (by decide)).2.1]
  decide

/-- C10: each compound-assignment operator is exactly the corresponding binary operator
followed by assignment (the source implements each one as `*this = *this op rhs`). -/
theorem compound_assign_eq (Rad : Radix) (x y : fixed_point) :
    fixed_point.addAssign Rad x y = fixed_point.add Rad x y ∧
    fixed_point.subAssign Rad x y = fixed_point.sub Rad x y ∧
    fixed_point.mulAssign Rad x y = fixed_point.mul Rad x y ∧
    fixed_point.divAssign Rad x y = fixed_point.div Rad x y :=
  ⟨rfl, rfl, rfl, rfl⟩

/-- C3: for every native integer `v` and scale `s` at which `v` is exactly representable
(`Radix^s` divides `v` when `s ≥ 0`; every integer is representable at a negative scale),
constructing from `(v, s)` and converting back to the native integer type returns `v`
exactly — the embedding computes in exact rational arithmetic, so the construction and
conversion introduce no rounding error beyond the stated representability condition. -/
theorem roundtrip_ofValueScale (Rad : Radix) (v s : Int)
    (hdvd : 0 ≤ s → (Rad.toInt ^ s.toNat) ∣ v) :
    fixed_point.toNativeI Rad (fixed_point.ofValueScale Rad (v : ℚ) s) = v := by
  have hR : 0 < Rad.toInt := radix_toInt_pos Rad
  by_cases hs : 0 ≤ s
  · obtain ⟨k, hk⟩ := hdvd hs
    have hP : (0:Int) < Rad.toInt ^ s.toNat := pow_pos hR _
    have hraw : ratTrunc (shift Rad (v : ℚ) s) = k := by
      rw [shift_as_zpow, zpow_neg, zpow_eq_pow_toNat_cast _ _ hs, ← div_eq_mul_inv,
        ratTrunc_div_intCast _ _ (by omega), hk, Int.mul_tdiv_cancel_left _ (by omega)]
    rw [fixed_point.toNativeI, fixed_point.toNativeF, fixed_point.ofValueScale]
    simp only [hraw]
    rw [shift_as_zpow]
    have hns : negate s = -s := by rw [negate]; ring
    rw [hns, neg_neg, zpow_eq_pow_toNat_cast _ _ hs, ← Int.cast_mul, ratTrunc_intCast, hk]
    ring
  · have hsp : (0:Int) ≤ -s := by omega
    have hP : (0:Int) < Rad.toInt ^ (-s).toNat := pow_pos hR _
    have hraw : ratTrunc (shift Rad (v : ℚ) s) = v * Rad.toInt ^ (-s).toNat := by
      rw [shift_as_zpow, zpow_eq_pow_toNat_cast _ _ hsp, ← Int.cast_mul, ratTrunc_intCast]
    rw [fixed_point.toNativeI, fixed_point.toNativeF, fixed_point.ofValueScale]
    simp only [hraw]
    rw [shift_as_zpow]
    have hns : negate s = -s := by rw [negate]; ring
    rw [hns, neg_neg]
    have h2 : ((v * Rad.toInt ^ (-s).toNat : Int) : ℚ) * (Rad.toInt : ℚ) ^ s
        = ((v * Rad.toInt ^ (-s).toNat : Int) : ℚ) / ((Rad.toInt ^ (-s).toNat : Int) : ℚ) := by
      rw [← zpow_eq_pow_toNat_cast _ _ hsp, div_eq_mul_inv, ← zpow_neg, neg_neg]
    rw [h2, ratTrunc_div_intCast _ _ (by omega), Int.mul_tdiv_cancel _ (by omega)]

/-- Witness for `roundtrip_ofValueScale`: radix 10, `v = 300`, `s = 2` (`100 ∣ 300`)
round-trips to 300, and `v = 125`, `s = -2` round-trips to 125. -/
theorem roundtrip_ofValueScale_witness :
    (((10:Int) ^ (2:Int).toNat ∣ 300) ∧
      fixed_point.toNativeI Radix.BASE_10
        (fixed_point.ofValueScale Radix.BASE_10 ((300:Int) : ℚ) 2) = 300) ∧
    fixed_point.toNativeI Radix.BASE_10
        (fixed_point.ofValueScale Radix.BASE_10 ((125:Int) : ℚ) (-2)) = 125 := by
  refine ⟨⟨⟨3, by decide⟩, ?_⟩, ?_⟩
  · exact roundtrip_ofValueScale Radix.BASE_10 300 2 (fun _ => ⟨3, by decide⟩)
  · exact roundtrip_ofValueScale Radix.BASE_10 125 (-2) (fun h => absurd h (by norm_num))

lemma gt_tdiv_iff_of_pos (x l r : Int) (hx : 0 ≤ x) (hr : 0 < r) :
    l > Int.tdiv x r ↔ x < l * r := by
  rw [Int.tdiv_eq_ediv hx hr.le, gt_iff_lt, ← not_le, Int.le_ediv_iff_mul_le hr, not_le]

lemma lt_tdiv_iff_of_neg_dividend (x l r : Int) (hx : x ≤ 0) (hr : 0 < r) :
    l < Int.tdiv x r ↔ l * r < x := by
  have h1 : Int.tdiv x r = -((-x) / r) := by
    rw [← Int.tdiv_eq_ediv (by omega) hr.le, ← Int.neg_tdiv, neg_neg]
  rw [h1, lt_neg, Int.ediv_lt_iff_lt_mul hr, neg_mul, neg_lt_neg_iff]

lemma gt_tdiv_iff_of_neg (x l r : Int) (hx : x ≤ 0) (hr : r < 0) :
    l > Int.tdiv x r ↔ l * r < x := by
  have h1 : Int.tdiv x r = (-x) / (-r) := by
    rw [← Int.tdiv_eq_ediv (by omega) (by omega), Int.neg_tdiv, Int.tdiv_neg, neg_neg]
  rw [h1, gt_iff_lt, Int.ediv_lt_iff_lt_mul (by omega : (0:Int) < -r), mul_neg, neg_lt_neg_iff]

lemma lt_tdiv_iff_of_nonneg_neg (x l r : Int) (hx : 0 ≤ x) (hr : r < 0) :
    l < Int.tdiv x r ↔ x < l * r := by
  have h1 : Int.tdiv x r = -(x / (-r)) := by
    rw [← Int.tdiv_eq_ediv hx (by omega : (0:Int) ≤ -r), Int.tdiv_neg, neg_neg]
  rw [h1, lt_neg, Int.ediv_lt_iff_lt_mul (by omega : (0:Int) < -r), neg_mul_neg]

/-- C5: over in-range operands of a twos-complement representation with bounds
`[mn, mx]` (`mn = -mx - 1`), each overflow predicate returns true exactly when the
mathematical result of the corresponding integer operation (toward-zero quotient for
division, defined only for a nonzero divisor) lies outside `[mn, mx]`. -/
theorem overflow_predicates_exact (mn mx l r : Int)
    (hmn : mn = -mx - 1) (hmx : 0 < mx)
    (hl1 : mn ≤ l) (hl2 : l ≤ mx) (hr1 : mn ≤ r) (hr2 : r ≤ mx) :
    (addition_overflow mn mx l r = true ↔ ¬ (mn ≤ l + r ∧ l + r ≤ mx)) ∧
    (subtraction_overflow mn mx l r = true ↔ ¬ (mn ≤ l - r ∧ l - r ≤ mx)) ∧
    (multiplication_overflow mn mx l r = true ↔ ¬ (mn ≤ l * r ∧ l * r ≤ mx)) ∧
    (r ≠ 0 → (division_overflow mn mx l r = true ↔
      ¬ (mn ≤ Int.tdiv l r ∧ Int.tdiv l r ≤ mx))) := by
  refine ⟨?_, ?_, ?_, ?_⟩
  · unfold addition_overflow
    by_cases hr : r > 0 <;> simp only [hr, if_true, if_false, decide_eq_true_eq] <;> omega
  · unfold subtraction_overflow
    by_cases hr : r > 0 <;> simp only [hr, if_true, if_false, decide_eq_true_eq] <;> omega
  · unfold multiplication_overflow
    by_cases hr : r > 0
    · rw [if_pos hr]
      simp only [Bool.or_eq_true, decide_eq_true_eq]
      rw [gt_tdiv_iff_of_pos mx l r hmx.le hr, lt_tdiv_iff_of_neg_dividend mn l r (by omega) hr,
        not_and_or, not_le, not_le]
      exact or_comm
    · by_cases hr2 : r < -1
      · rw [if_neg hr, if_pos hr2]
        simp only [Bool.or_eq_true, decide_eq_true_eq]
        rw [gt_tdiv_iff_of_neg mn l r (by omega) (by omega),
          lt_tdiv_iff_of_nonneg_neg mx l r hmx.le (by omega), not_and_or, not_le, not_le]
      · rw [if_neg hr, if_neg hr2]
        have hr01 : r = 0 ∨ r = -1 := by omega
        rcases hr01 with h0 | h1
        · subst h0
          simp only [Bool.and_eq_true, beq_iff_eq, mul_zero]
          omega
        · subst h1
          simp only [Bool.and_eq_true, beq_iff_eq, mul_neg_one, true_and]
          omega
  · intro hr0
    unfold division_overflow
    simp only [Bool.and_eq_true, beq_iff_eq]
    constructor
    · rintro ⟨h1, h2⟩
      subst h1; subst h2
      rw [Int.tdiv_neg, Int.tdiv_one]
      omega
    · intro h
      by_contra hne
      rw [not_and_or] at hne
      rcases eq_or_ne r (-1) with h1 | h1
      · subst h1
        rw [Int.tdiv_neg, Int.tdiv_one] at h
        have hlmn : l ≠ mn := by tauto
        exact h ⟨by omega, by omega⟩
      · rcases eq_or_ne r 1 with h2 | h2
        · subst h2
          rw [Int.tdiv_one] at h
          exact h ⟨hl1, hl2⟩
        · have h3 : (Int.tdiv l r).natAbs ≤ l.natAbs / 2 := by
            rw [Int.natAbs_tdiv]
            exact Nat.div_le_div_left (by omega) (by norm_num)
          exact h ⟨by omega, by omega⟩

/-- Witness for `overflow_predicates_exact`: the boundary instances of the spec at the
`int32_t` bounds. -/
theorem overflow_predicates_exact_witness :
    (addition_overflow int32_min int32_max int32_max 1 = true) ∧
    (addition_overflow int32_min int32_max int32_max 0 = false) ∧
    (subtraction_overflow int32_min int32_max int32_min 1 = true) ∧
    (subtraction_overflow int32_min int32_max int32_min 0 = false) ∧
    (multiplication_overflow int32_min int32_max int32_min (-1) = true) ∧
    (multiplication_overflow int32_min int32_max int32_min 1 = false) ∧
    (division_overflow int32_min int32_max int32_min (-1) = true) ∧
    (division_overflow int32_min int32_max int32_min 1 = false) := by
  refine ⟨?_, by decide, by decide, by decide, by decide, by decide, by decide, by decide⟩
  exact (overflow_predicates_exact int32_min int32_max int32_max 1 (by decide) (by decide)
    (by decide) (by decide) (by decide) (by decide)).1.mpr (by decide)

/-- C9: checked division fails, and fails with the sole error kind `Overflow`, exactly on
the input pair whose dividend raw value is `MIN` and divisor raw value is `-1`; a zero
divisor is never flagged (`division_overflow(lhs, 0)` is false for every `lhs`), so the
checked entry point performs the division anyway. -/
theorem divChecked_overflow_iff (Rad : Radix) (mn mx : Int) (a b : fixed_point) :
    (fixed_point.divChecked Rad mn mx a b = Except.error FpError.Overflow ↔
      a._value = mn ∧ b._value = -1) ∧
    (∀ e, fixed_point.divChecked Rad mn mx a b = Except.error e → e = FpError.Overflow) ∧
    (∀ lv, division_overflow mn mx lv 0 = false) ∧
    (b._value = 0 → fixed_point.divChecked Rad mn mx a b
      = Except.ok (fixed_point.div Rad a b)) := by
  have hio : division_overflow mn mx a._value b._value = true ↔
      (a._value = mn ∧ b._value = -1) := by
    simp [division_overflow]
  refine ⟨?_, ?_, ?_, ?_⟩
  · unfold fixed_point.divChecked
    by_cases h : division_overflow mn mx a._value b._value = true
    · rw [if_pos h]
      exact ⟨fun _ => hio.mp h, fun _ => rfl⟩
    · rw [if_neg h]
      constructor
      · intro hc; exact absurd hc (by simp)
      · intro hc; exact absurd (hio.mpr hc) h
  · intro e
    unfold fixed_point.divChecked
    by_cases h : division_overflow mn mx a._value b._value = true
    · rw [if_pos h]
      intro he
      exact (Except.error.inj he).symm
    · rw [if_neg h]
      intro he
      exact absurd he (by simp)
  · intro lv
    simp [division_overflow]
  · intro hb0
    unfold fixed_point.divChecked
    rw [if_neg (by simp [division_overflow, hb0])]

/-- Witness for `divChecked_overflow_iff`: with `int32` bounds, `MIN / -1` errors with
`Overflow`, and a zero divisor is not flagged. -/
theorem divChecked_overflow_iff_witness :
    (fixed_point.divChecked Radix.BASE_10 int32_min int32_max
      { _scale := 0, _value := int32_min } { _scale := 0, _value := -1 }
      = Except.error FpError.Overflow) ∧
    ((0:Int) = 0 ∧ fixed_point.divChecked Radix.BASE_10 int32_min int32_max
      { _scale := 0, _value := 5 } { _scale := 0, _value := 0 }
      = Except.ok (fixed_point.div Radix.BASE_10 { _scale := 0, _value := 5 }
          { _scale := 0, _value := 0 })) := by
  constructor
  · exact (divChecked_overflow_iff Radix.BASE_10 int32_min int32_max _ _).1.mpr ⟨rfl, rfl⟩
  · exact ⟨rfl, (divChecked_overflow_iff Radix.BASE_10 int32_min int32_max _ _).2.2.2 rfl⟩

/-- C8 (code bug): at unscaled value 100, scale -2, radix 10 the exactness
check of the contract succeeds (candidate 10000 re-expands exactly to 100), yet `get` takes the
floating-point branch because its test multiplies the candidate by `Radix * scale`
instead of `Radix ^ scale`; the two accessors even disagree numerically (1 vs 10000). -/
theorem get_exactness_check_divergence :
    fixed_point.get Radix.BASE_10 { _scale := -2, _value := 100 } = 1 ∧
    get_contract Radix.BASE_10 { _scale := -2, _value := 100 } = 10000 ∧
    ((ratTrunc ((100 : ℚ) / powZ 10 (-2)) : ℚ) * powZ 10 (-2) = (100 : ℚ)) := by
  refine ⟨?_, ?_, ?_⟩ <;>
    · simp [fixed_point.get, get_contract, fixed_point.toNativeF, fixed_point.toNativeI,
        shift, right_shift, left_shift, negate, powZ, ratTrunc, Radix.toInt]
      try norm_num

end cudf
